import Mathlib

/-!
Shallow embedding of the canvasgen time-evaluation engine
(`src/lib/core.ts`): the `Duration` value type, the built-in
time-transform strategies, and every `Animation` class, together with
proofs of the behavioural laws stated in the specification.

Evaluation is modelled in `Option`: `none` stands for a thrown runtime
error (the `assert` strategy throwing out of bounds, or an undefined
array access on an empty combinator list).  JavaScript's `%` on integers
is truncated remainder, embedded as `Int.tmod`.
-/

/-- Embeds the `Duration` class: an immutable integral frame count. -/
structure Duration where
  frame : Int
deriving DecidableEq, Repr

namespace Duration

/-- `dividedBy`: the ratio of two durations (`this.frame / divisor.frame`). -/
def dividedBy (a divisor : Duration) : ℚ :=
  (a.frame : ℚ) / (divisor.frame : ℚ)

/-- `add` -/
def add (a other : Duration) : Duration := ⟨a.frame + other.frame⟩

/-- `subtract` -/
def subtract (a other : Duration) : Duration := ⟨a.frame - other.frame⟩

/-- `isLessThan` -/
def isLessThan (a other : Duration) : Bool := decide (a.frame < other.frame)

/-- `isGreaterThan` -/
def isGreaterThan (a other : Duration) : Bool := decide (a.frame > other.frame)

/-- `isZero` -/
def isZero (a : Duration) : Bool := decide (a.frame = 0)

/-- `clamp(min, max)`: `Math.max(min.frame, Math.min(max.frame, this.frame))`. -/
def clamp (a lo hi : Duration) : Duration :=
  ⟨max lo.frame (min hi.frame a.frame)⟩

/-- `wrap(max)`: `(this.frame % max.frame + max.frame) % max.frame`,
with JavaScript's truncated `%` embedded as `Int.tmod`. -/
def wrap (a mx : Duration) : Duration :=
  ⟨(Int.tmod a.frame mx.frame + mx.frame).tmod mx.frame⟩

/-- `isEqualTo` -/
def isEqualTo (a other : Duration) : Bool := decide (a.frame = other.frame)

/-- static `min` -/
def min (a b : Duration) : Duration := ⟨Min.min a.frame b.frame⟩

/-- static `max` -/
def max (a b : Duration) : Duration := ⟨Max.max a.frame b.frame⟩

/-- static `zero` -/
def zero : Duration := ⟨0⟩

end Duration

/-- The named built-in `TimeTransformStrategy` values of `core.ts`. -/
inductive Strat where
  | delegate
  | clamp
  | wrap
  | assert
  | resetToZero
  | resetToZeroInclusive
deriving DecidableEq, Repr

/-- The time transform a strategy yields for an animation of duration
`d`, applied to input `t`.  `none` models the error thrown by
`assertTime`; every other strategy returns a value. -/
def Strat.transform : Strat → Duration → Duration → Option Duration
  | .delegate, _, t => some t
  | .clamp, d, t => some (t.clamp Duration.zero d)
  | .wrap, d, t => some (t.wrap d)
  | .assert, d, t =>
      if t.isLessThan Duration.zero || t.isGreaterThan d then none else some t
  | .resetToZero, d, t => some (if t.isGreaterThan d then Duration.zero else t)
  | .resetToZeroInclusive, d, t =>
      some (if t.isLessThan d then t else Duration.zero)

/-- The semantic content of an `Animation<T>` object: its declared
duration and strategy plus the two query operations, each in `Option`
with `none` modelling a thrown error. -/
structure AnimSem (T : Type) where
  duration : Duration
  strategy : Strat
  at? : Duration → Option T
  isSameAt? : Duration → Duration → Option Bool

/-- `TransformingAnimation.at`: apply the node's strategy transform,
then the node's own `atTransformed`. -/
def transformingAt {T : Type} (dur : Duration) (s : Strat)
    (atTransformed : Duration → Option T) : Duration → Option T :=
  fun t => (s.transform dur t).bind atTransformed

/-- `TransformingAnimation.isSameAt`: transform both instants, answer
`true` on literal equality, otherwise defer to `isSameAtTransformed`. -/
def transformingSame (dur : Duration) (s : Strat)
    (sameAtTransformed : Duration → Duration → Option Bool) :
    Duration → Duration → Option Bool :=
  fun a b =>
    (s.transform dur a).bind fun a' =>
      (s.transform dur b).bind fun b' =>
        if a'.isEqualTo b' then some true else sameAtTransformed a' b'

/-- `ConstantAnimation`: always its value, `isSameAt` always true. -/
def ConstantAnimation {T : Type} (value : T) (dur : Duration) : AnimSem T where
  duration := dur
  strategy := .delegate
  at? := fun _ => some value
  isSameAt? := fun _ _ => some true

/-- Tween progress: `duration.isZero ? 1 : time.dividedBy(duration)`. -/
def tweenProgress (dur time : Duration) : ℚ :=
  if dur.isZero then 1 else time.dividedBy dur

/-- Applies the optional easing of a tween (absent easing is identity). -/
def easedApply : Option (ℚ → ℚ) → ℚ → ℚ
  | some e, p => e p
  | none, p => p

/-- `Tween.atTransformed`. -/
def tweenAtTransformed {T : Type} (lerp : T → T → ℚ → T) (frm toV : T)
    (dur : Duration) (easing : Option (ℚ → ℚ)) : Duration → Option T :=
  fun time => some (lerp frm toV (easedApply easing (tweenProgress dur time)))

/-- The `Tween` class (`defineTween`'s product). -/
def Tween {T : Type} (lerp : T → T → ℚ → T) (frm toV : T) (dur : Duration)
    (easing : Option (ℚ → ℚ)) (s : Strat) : AnimSem T where
  duration := dur
  strategy := s
  at? := transformingAt dur s (tweenAtTransformed lerp frm toV dur easing)
  isSameAt? := transformingSame dur s (fun _ _ => some false)

/-- `CallbackAnimation.atTransformed`: note the callback receives the
node's transform applied a second time. -/
def callbackAtTransformed {T : Type} (dur : Duration) (s : Strat)
    (cb : Duration → T) : Duration → Option T :=
  fun time => (s.transform dur time).map cb

/-- `CallbackAnimation.isSameAtTransformed`. -/
def callbackSameAtTransformed (sameCb : Option (Duration → Duration → Bool)) :
    Duration → Duration → Option Bool :=
  fun a b =>
    match sameCb with
    | some f => some (f a b)
    | none => some false

/-- The `CallbackAnimation` class. -/
def CallbackAnimation {T : Type} (dur : Duration) (s : Strat)
    (cb : Duration → T) (sameCb : Option (Duration → Duration → Bool)) :
    AnimSem T where
  duration := dur
  strategy := s
  at? := transformingAt dur s (callbackAtTransformed dur s cb)
  isSameAt? := transformingSame dur s (callbackSameAtTransformed sameCb)

/-- `DerivedAnimation.atTransformed`: the callback applied to the
source evaluated at the (already transformed) time. -/
def derivedAtTransformed {S U : Type} (source : AnimSem S) (f : S → U) :
    Duration → Option U :=
  fun time => (source.at? time).map f

/-- The `DerivedAnimation` class, which `Animation.derive` returns:
same duration and strategy as the source. -/
def DerivedAnimation {S U : Type} (source : AnimSem S) (f : S → U) :
    AnimSem U where
  duration := source.duration
  strategy := source.strategy
  at? := transformingAt source.duration source.strategy
    (derivedAtTransformed source f)
  isSameAt? := transformingSame source.duration source.strategy
    (fun a b => source.isSameAt? a b)

/-- The duration reduce of `ArrayAnimation`: max of children, from zero. -/
def listMaxDuration {T : Type} (l : List (AnimSem T)) : Duration :=
  l.foldl (fun mx a => Duration.max mx a.duration) Duration.zero

/-- `ArrayAnimation.atTransformed`: every child evaluated at the
transform applied a second time. -/
def arrayAtTransformed {T : Type} (dur : Duration) (s : Strat)
    (src : List (AnimSem T)) : Duration → Option (List T) :=
  fun time =>
    (s.transform dur time).bind fun t2 => src.mapM (fun a => a.at? t2)

/-- `Array.prototype.every` over `isSameAt`, with JavaScript's
short-circuit on the first `false`. -/
def arrayAllSame {T : Type} : List (AnimSem T) → Duration → Duration →
    Option Bool
  | [], _, _ => some true
  | a :: rest, x, y =>
      (a.isSameAt? x y).bind fun r =>
        if r then arrayAllSame rest x y else some false

/-- The `ArrayAnimation` class. -/
def ArrayAnimation {T : Type} (src : List (AnimSem T)) (s : Strat) :
    AnimSem (List T) where
  duration := listMaxDuration src
  strategy := s
  at? := transformingAt (listMaxDuration src) s
    (arrayAtTransformed (listMaxDuration src) s src)
  isSameAt? := transformingSame (listMaxDuration src) s
    (fun a b => arrayAllSame src a b)

/-- The duration reduce of `SequenceAnimation` (and of
`StaggeredAnimation`): sum of children, from zero. -/
def seqTotalDuration {T : Type} (l : List (AnimSem T)) : Duration :=
  l.foldl (fun sum a => sum.add a.duration) Duration.zero

/-- The fall-through after `SequenceAnimation.atTransformed`'s loop:
evaluate the last child of the full list at `time - (nextStart -
lastAnim.duration)`; on an empty list the indexing is undefined and the
call throws (`none`). -/
def seqFallback {T : Type} (full : List (AnimSem T)) (time nextStart : Duration) :
    Option T :=
  match full.getLast? with
  | none => none
  | some lastAnim =>
      lastAnim.at? (time.subtract (nextStart.subtract lastAnim.duration))

/-- The loop of `SequenceAnimation.atTransformed`, accumulating
`nextStart` over the children. -/
def seqGo {T : Type} (full : List (AnimSem T)) (time : Duration) :
    List (AnimSem T) → Duration → Option T
  | [], nextStart => seqFallback full time nextStart
  | a :: rest, nextStart =>
      let ns := nextStart.add a.duration
      if time.isLessThan ns then a.at? (time.subtract (ns.subtract a.duration))
      else seqGo full time rest ns

/-- The `SequenceAnimation` class. -/
def SequenceAnimation {T : Type} (l : List (AnimSem T)) (s : Strat) :
    AnimSem T where
  duration := seqTotalDuration l
  strategy := s
  at? := transformingAt (seqTotalDuration l) s
    (fun time => seqGo l time l Duration.zero)
  isSameAt? := transformingSame (seqTotalDuration l) s (fun _ _ => some false)

/-- The `Timed<T>` record. -/
structure Timed (T : Type) where
  value : T
  time : Duration

/-- The index `SwitchAnimation.getAnimAt` resolves to: `findIndex` of
the first entry with start time above `t`, stepped back one with
JavaScript's negative indexing (`at(-1)` is the last element).  `none`
models the undefined access on an empty list. -/
def switchChosenIdx {T : Type} (l : List (Timed (AnimSem T)))
    (t : Duration) : Option Nat :=
  match l.findIdx? (fun a => a.time.isGreaterThan t) with
  | none => if l.length = 0 then none else some (l.length - 1)
  | some i => if i = 0 then some (l.length - 1) else some (i - 1)

/-- `SwitchAnimation.getAnimAt`. -/
def switchGetAnimAt {T : Type} (l : List (Timed (AnimSem T)))
    (t : Duration) : Option (Timed (AnimSem T)) :=
  (switchChosenIdx l t).bind fun i => l.get? i

/-- `SwitchAnimation.atTransformed`. -/
def switchAtTransformed {T : Type} (l : List (Timed (AnimSem T))) :
    Duration → Option T :=
  fun time =>
    (switchGetAnimAt l time).bind fun current =>
      current.value.at? (time.subtract current.time)

/-- `SwitchAnimation.isSameAt` (overridden: works on the raw instants;
two instants resolving to different entries answer `false`). -/
def switchSameAt {T : Type} (l : List (Timed (AnimSem T))) :
    Duration → Duration → Option Bool :=
  fun a b =>
    (switchChosenIdx l a).bind fun ia =>
      (switchChosenIdx l b).bind fun ib =>
        if ia ≠ ib then some false
        else
          (l.get? ia).bind fun animA =>
            animA.value.isSameAt? (a.subtract animA.time) (b.subtract animA.time)

/-- The `SwitchAnimation` class. -/
def SwitchAnimation {T : Type} (theEnd : Duration)
    (l : List (Timed (AnimSem T))) (s : Strat) : AnimSem T where
  duration := theEnd
  strategy := s
  at? := transformingAt theEnd s (switchAtTransformed l)
  isSameAt? := switchSameAt l

/-- `windowBetween(from, to)`. -/
def windowBetween (frm upTo : Duration) : Duration → Duration :=
  fun time => (time.subtract frm).clamp Duration.zero (upTo.subtract frm)

/-- The end time computed by `WindowedAnimation`'s constructor. -/
def windowedEndTime {T : Type} (l : List (Timed (AnimSem T))) : Duration :=
  match l.getLast? with
  | none => Duration.zero
  | some lastAnim => lastAnim.time.add lastAnim.value.duration

/-- `WindowedAnimation.atTransformed`: each child evaluated inside its
own caller-supplied window. -/
def windowedAtTransformed {T : Type} (l : List (Timed (AnimSem T))) :
    Duration → Option (List T) :=
  fun time =>
    l.mapM fun a =>
      a.value.at? (windowBetween a.time (a.time.add a.value.duration) time)

/-- The `every` loop of `WindowedAnimation.isSameAt`. -/
def windowedAllSame {T : Type} : List (Timed (AnimSem T)) → Duration →
    Duration → Option Bool
  | [], _, _ => some true
  | a :: rest, x, y =>
      let w := windowBetween a.time (a.time.add a.value.duration)
      (a.value.isSameAt? (w x) (w y)).bind fun r =>
        if r then windowedAllSame rest x y else some false

/-- The `WindowedAnimation` class. -/
def WindowedAnimation {T : Type} (l : List (Timed (AnimSem T))) (s : Strat) :
    AnimSem (List T) where
  duration := windowedEndTime l
  strategy := s
  at? := transformingAt (windowedEndTime l) s (windowedAtTransformed l)
  isSameAt? := fun a b =>
    if a.isEqualTo b then some true else windowedAllSame l a b

/-- `StaggeredAnimation.atTransformed`, the windows laid out
back-to-back from the accumulated `nextStart`. -/
def staggeredAt {T : Type} (time : Duration) : List (AnimSem T) → Duration →
    Option (List T)
  | [], _ => some []
  | a :: rest, nextStart =>
      (a.at? (windowBetween nextStart (nextStart.add a.duration) time)).bind
        fun v => (staggeredAt time rest (nextStart.add a.duration)).map
          fun vs => v :: vs

/-- The `every` loop of `StaggeredAnimation.isSameAt`. -/
def staggeredAllSame {T : Type} (x y : Duration) : List (AnimSem T) →
    Duration → Option Bool
  | [], _ => some true
  | a :: rest, nextStart =>
      let w := windowBetween nextStart (nextStart.add a.duration)
      (a.isSameAt? (w x) (w y)).bind fun r =>
        if r then staggeredAllSame x y rest (nextStart.add a.duration)
        else some false

/-- The `StaggeredAnimation` class. -/
def StaggeredAnimation {T : Type} (l : List (AnimSem T)) (s : Strat) :
    AnimSem (List T) where
  duration := seqTotalDuration l
  strategy := s
  at? := transformingAt (seqTotalDuration l) s
    (fun time => staggeredAt time l Duration.zero)
  isSameAt? := fun a b =>
    if a.isEqualTo b then some true
    else staggeredAllSame a b l Duration.zero

/-- `lerpNumber` from `std.ts`, over the rationals. -/
def lerpNumber (a b t : ℚ) : ℚ := a + (b - a) * t

/-- The frame counts of a list of animations' durations. -/
def durFrames {T : Type} (l : List (AnimSem T)) : List Int :=
  l.map (fun a => a.duration.frame)

/-- The cumulative start offset of child `k` in a sequence or staggered
layout: the sum of the first `k` durations. -/
def startOffset {T : Type} (l : List (AnimSem T)) (k : Nat) : Int :=
  ((durFrames l).take k).sum

/-! ### Helper lemmas about `Duration` and the strategies -/

theorem Int.neg_tmod (a b : Int) : Int.tmod (-a) b = -Int.tmod a b := by
  rw [Int.tmod_def, Int.tmod_def, Int.neg_tdiv]
  ring

theorem Int.neg_lt_tmod (a : Int) {b : Int} (hb : 0 < b) : -b < Int.tmod a b := by
  rcases le_or_lt 0 a with ha | ha
  · have := Int.tmod_nonneg b ha
    omega
  · have h1 : Int.tmod (-a) b < b := Int.tmod_lt_of_pos _ hb
    have h2 : Int.tmod (-a) b = -Int.tmod a b := Int.neg_tmod a b
    omega

theorem Duration.wrap_mem (a b : Duration) (hb : 0 < b.frame) :
    0 ≤ (a.wrap b).frame ∧ (a.wrap b).frame < b.frame := by
  unfold Duration.wrap
  have h1 : Int.tmod a.frame b.frame < b.frame := Int.tmod_lt_of_pos _ hb
  have h2 : -b.frame < Int.tmod a.frame b.frame := Int.neg_lt_tmod _ hb
  have h3 : 0 ≤ Int.tmod a.frame b.frame + b.frame := by omega
  rw [Int.tmod_eq_emod h3 (le_of_lt hb)]
  exact ⟨Int.emod_nonneg _ (by omega), Int.emod_lt_of_pos _ hb⟩

theorem Duration.wrap_eq_of_mem (a b : Duration) (h0 : 0 ≤ a.frame)
    (hb : a.frame < b.frame) : a.wrap b = a := by
  unfold Duration.wrap
  rw [Int.tmod_eq_of_lt h0 hb]
  have hbp : 0 < b.frame := by omega
  have : (a.frame + b.frame).tmod b.frame = (a.frame + b.frame) % b.frame :=
    Int.tmod_eq_emod (by omega) (by omega)
  rw [this]
  have h4 : (a.frame + b.frame) % b.frame = a.frame := by
    rw [show a.frame + b.frame = a.frame + b.frame * 1 by ring,
      Int.add_mul_emod_self_left, Int.emod_eq_of_lt h0 hb]
  rw [h4]

/-- Idempotence of every built-in strategy transform (for `wrap` when the
duration is positive; for `assert` a successful transform is in bounds). -/
theorem Strat.transform_idem (s : Strat) (d : Duration)
    (hw : s = .wrap → 0 < d.frame) (t t' : Duration)
    (h : s.transform d t = some t') : s.transform d t' = some t' := by
  cases s with
  | delegate => simp_all [Strat.transform]
  | clamp =>
      simp only [Strat.transform, Option.some.injEq] at h ⊢
      subst h
      simp only [Duration.clamp, Duration.zero, Duration.mk.injEq]
      omega
  | wrap =>
      simp only [Strat.transform, Option.some.injEq] at h ⊢
      subst h
      have hd : 0 < d.frame := hw rfl
      have hmem := Duration.wrap_mem t d hd
      exact Duration.wrap_eq_of_mem _ _ hmem.1 hmem.2
  | assert =>
      simp only [Strat.transform] at h ⊢
      split at h
      · exact absurd h (by simp)
      · simp only [Option.some.injEq] at h
        subst h
        simp_all
  | resetToZero =>
      simp only [Strat.transform, Option.some.injEq] at h ⊢
      subst h
      by_cases hc : t.isGreaterThan d = true
      · simp [hc, ite_self]
      · simp [hc]
  | resetToZeroInclusive =>
      simp only [Strat.transform, Option.some.injEq] at h ⊢
      subst h
      by_cases hc : t.isLessThan d = true
      · simp [hc]
      · simp [hc, ite_self]

/-! ### Claim theorems: strategies -/

/-- C8: for all `Duration` values `a`, `b` with `b.frame > 0`,
`a.wrap(b).frame` lies in the half-open interval `[0, b.frame)`,
including when `a.frame` is negative. -/
theorem C8_wrap_in_range (a b : Duration) (hb : 0 < b.frame) :
    0 ≤ (a.wrap b).frame ∧ (a.wrap b).frame < b.frame :=
  Duration.wrap_mem a b hb

theorem C8_wrap_in_range_witness :
    0 ≤ ((Duration.mk (-7)).wrap ⟨3⟩).frame ∧
      ((Duration.mk (-7)).wrap ⟨3⟩).frame < (Duration.mk 3).frame :=
  C8_wrap_in_range ⟨-7⟩ ⟨3⟩ (by decide)

/-- C6: the `assert` strategy transform fails exactly when the instant is
below zero or above the animation's duration; every other built-in
strategy transform is total (always returns a value). -/
theorem C6_assert_only_failure (d t : Duration) :
    (Strat.assert.transform d t = none ↔ (t.frame < 0 ∨ d.frame < t.frame))
    ∧ (∀ s : Strat, s ≠ .assert → (s.transform d t).isSome = true) := by
  constructor
  · simp only [Strat.transform]
    split <;> rename_i hcond <;>
      simp_all [Duration.isLessThan, Duration.isGreaterThan, Duration.zero]
  · intro s hs
    cases s <;> simp_all [Strat.transform]

theorem C6_assert_only_failure_witness :
    (Strat.clamp.transform ⟨3⟩ ⟨7⟩).isSome = true :=
  (C6_assert_only_failure ⟨3⟩ ⟨7⟩).2 Strat.clamp (by decide)

/-- C7 fails as stated: at duration 1 and instant 1 the plain
`resetToZero` transform keeps the end instant (`1`, still "complete")
while the `Inclusive` variant maps it to zero — the claim assigns the
two behaviours the other way round — and at duration 0 the two
transforms agree even at `t == duration`. -/
theorem C7_counterexample :
    Strat.resetToZero.transform ⟨1⟩ ⟨1⟩ = some ⟨1⟩
    ∧ Strat.resetToZeroInclusive.transform ⟨1⟩ ⟨1⟩ = some ⟨0⟩
    ∧ Strat.resetToZero.transform ⟨0⟩ ⟨0⟩ =
        Strat.resetToZeroInclusive.transform ⟨0⟩ ⟨0⟩ := by
  exact ⟨rfl, rfl, rfl⟩

/-- C7 (amended): the two reset transforms agree at every instant
`t ≠ duration`; when the duration is non-zero they differ at exactly
`t == duration`, where `resetToZero` keeps the end instant (still
"complete") and `resetToZeroInclusive` maps it to zero (already
"reset"). -/
theorem C7_reset_variants (d t : Duration) :
    (t ≠ d → Strat.resetToZero.transform d t =
        Strat.resetToZeroInclusive.transform d t)
    ∧ (d.frame ≠ 0 →
        Strat.resetToZero.transform d d = some d
        ∧ Strat.resetToZeroInclusive.transform d d = some Duration.zero
        ∧ Strat.resetToZero.transform d d ≠
            Strat.resetToZeroInclusive.transform d d) := by
  constructor
  · intro hne
    have hf : t.frame ≠ d.frame := by
      intro h
      exact hne (by cases t; cases d; simp_all)
    simp only [Strat.transform, Duration.isGreaterThan, Duration.isLessThan,
      Option.some.injEq]
    by_cases h : d.frame < t.frame
    · simp [h, show ¬t.frame < d.frame by omega]
    · simp [h, show t.frame < d.frame by omega]
  · intro h0
    refine ⟨?_, ?_, ?_⟩ <;>
      simp [Strat.transform, Duration.isGreaterThan, Duration.isLessThan,
        Duration.zero, Duration.mk.injEq, h0]
    · cases d
      simp_all

theorem C7_reset_variants_witness :
    (Strat.resetToZero.transform ⟨5⟩ ⟨3⟩ =
      Strat.resetToZeroInclusive.transform ⟨5⟩ ⟨3⟩)
    ∧ Strat.resetToZero.transform ⟨5⟩ ⟨5⟩ ≠
        Strat.resetToZeroInclusive.transform ⟨5⟩ ⟨5⟩ :=
  ⟨(C7_reset_variants ⟨5⟩ ⟨3⟩).1 (by decide),
    ((C7_reset_variants ⟨5⟩ ⟨5⟩).2 (by decide)).2.2⟩

/-- C10: every built-in strategy transform is idempotent (for `wrap`
when the duration is positive; for `assert` on a successful, in-bounds
transform), and consequently the second transform application inside
`CallbackAnimation.atTransformed` and `ArrayAnimation.atTransformed`
is a no-op: both classes return what a single application would. -/
theorem C10_double_transform (s : Strat) (d : Duration) (_hd : 0 ≤ d.frame)
    (hw : s = .wrap → 0 < d.frame) :
    (∀ t t', s.transform d t = some t' → s.transform d t' = some t')
    ∧ (∀ (T : Type) (cb : Duration → T)
        (sameCb : Option (Duration → Duration → Bool)) (t : Duration),
        (CallbackAnimation d s cb sameCb).at? t = (s.transform d t).map cb)
    ∧ (∀ (T : Type) (l : List (AnimSem T)),
        (s = .wrap → 0 < (listMaxDuration l).frame) →
        ∀ t : Duration,
          (ArrayAnimation l s).at? t =
            (s.transform (listMaxDuration l) t).bind
              (fun t1 => l.mapM (fun a => a.at? t1))) := by
  refine ⟨fun t t' h => Strat.transform_idem s d hw t t' h, ?_, ?_⟩
  · intro T cb sameCb t
    show transformingAt d s (callbackAtTransformed d s cb) t = _
    unfold transformingAt callbackAtTransformed
    cases h : s.transform d t with
    | none => rfl
    | some t1 => simp [Strat.transform_idem s d hw t t1 h]
  · intro T l hwl t
    show transformingAt _ s (arrayAtTransformed _ s l) t = _
    unfold transformingAt arrayAtTransformed
    cases h : s.transform (listMaxDuration l) t with
    | none => rfl
    | some t1 => simp [Strat.transform_idem s (listMaxDuration l) hwl t t1 h]

theorem C10_double_transform_witness :
    (CallbackAnimation ⟨4⟩ Strat.clamp (fun x => x) none).at? ⟨9⟩ =
      (Strat.clamp.transform ⟨4⟩ ⟨9⟩).map (fun x => x) :=
  (C10_double_transform Strat.clamp ⟨4⟩ (by decide) (by decide)).2.1
    Duration (fun x => x) none ⟨9⟩

/-! ### Claim theorems: isSameAt base rule, derive, zero-duration tween -/

theorem transformingSame_of_eq (dur : Duration) (s : Strat)
    (sameT : Duration → Duration → Option Bool) (a b c : Duration)
    (ha : s.transform dur a = some c) (hb : s.transform dur b = some c) :
    transformingSame dur s sameT a b = some true := by
  simp [transformingSame, ha, hb, Duration.isEqualTo]

/-- C2 fails as stated: a `SwitchAnimation` of duration 10 under the
clamp strategy maps the instants 15 and 20 to the same transformed
instant, yet its (overridden, raw-instant) `isSameAt` answers `false`
because the selected child reports the local instants 15 and 20 as not
provably equal. -/
theorem C2_counterexample :
    Strat.clamp.transform ⟨10⟩ ⟨15⟩ = Strat.clamp.transform ⟨10⟩ ⟨20⟩
    ∧ (SwitchAnimation ⟨10⟩
        [⟨Tween lerpNumber 0 100 ⟨100⟩ none Strat.clamp, ⟨0⟩⟩]
        Strat.clamp).isSameAt? ⟨15⟩ ⟨20⟩ = some false := by
  exact ⟨rfl, rfl⟩

/-- C2 (amended): if the node's strategy transform maps `a` and `b` to
equal Durations then `isSameAt(a, b)` is `true` for tween, constant,
callback, derived, array and sequence nodes (those using the inherited
`TransformingAnimation.isSameAt`); switch, staggered and windowed nodes
override `isSameAt` to inspect the raw instants, and staggered and
windowed answer `true` whenever the raw instants are literally equal. -/
theorem C2_base_rule :
    (∀ (T : Type) (lerp : T → T → ℚ → T) (frm toV : T) (dur : Duration)
        (easing : Option (ℚ → ℚ)) (s : Strat) (a b c : Duration),
        s.transform dur a = some c → s.transform dur b = some c →
        (Tween lerp frm toV dur easing s).isSameAt? a b = some true)
    ∧ (∀ (T : Type) (v : T) (dur : Duration) (a b : Duration),
        (ConstantAnimation v dur).isSameAt? a b = some true)
    ∧ (∀ (T : Type) (dur : Duration) (s : Strat) (cb : Duration → T)
        (sameCb : Option (Duration → Duration → Bool)) (a b c : Duration),
        s.transform dur a = some c → s.transform dur b = some c →
        (CallbackAnimation dur s cb sameCb).isSameAt? a b = some true)
    ∧ (∀ (S U : Type) (src : AnimSem S) (f : S → U) (a b c : Duration),
        src.strategy.transform src.duration a = some c →
        src.strategy.transform src.duration b = some c →
        (DerivedAnimation src f).isSameAt? a b = some true)
    ∧ (∀ (T : Type) (l : List (AnimSem T)) (s : Strat) (a b c : Duration),
        s.transform (listMaxDuration l) a = some c →
        s.transform (listMaxDuration l) b = some c →
        (ArrayAnimation l s).isSameAt? a b = some true)
    ∧ (∀ (T : Type) (l : List (AnimSem T)) (s : Strat) (a b c : Duration),
        s.transform (seqTotalDuration l) a = some c →
        s.transform (seqTotalDuration l) b = some c →
        (SequenceAnimation l s).isSameAt? a b = some true)
    ∧ (∀ (T : Type) (l : List (AnimSem T)) (s : Strat) (a : Duration),
        (StaggeredAnimation l s).isSameAt? a a = some true)
    ∧ (∀ (T : Type) (l : List (Timed (AnimSem T))) (s : Strat) (a : Duration),
        (WindowedAnimation l s).isSameAt? a a = some true) := by
  refine ⟨?_, ?_, ?_, ?_, ?_, ?_, ?_, ?_⟩
  · intro T lerp frm toV dur easing s a b c ha hb
    exact transformingSame_of_eq dur s _ a b c ha hb
  · intro T v dur a b
    rfl
  · intro T dur s cb sameCb a b c ha hb
    exact transformingSame_of_eq dur s _ a b c ha hb
  · intro S U src f a b c ha hb
    exact transformingSame_of_eq src.duration src.strategy _ a b c ha hb
  · intro T l s a b c ha hb
    exact transformingSame_of_eq (listMaxDuration l) s _ a b c ha hb
  · intro T l s a b c ha hb
    exact transformingSame_of_eq (seqTotalDuration l) s _ a b c ha hb
  · intro T l s a
    show (if a.isEqualTo a then some true else _) = some true
    simp [Duration.isEqualTo]
  · intro T l s a
    show (if a.isEqualTo a then some true else _) = some true
    simp [Duration.isEqualTo]

theorem C2_base_rule_witness :
    (Tween lerpNumber 0 1 ⟨10⟩ none Strat.clamp).isSameAt? ⟨12⟩ ⟨15⟩ =
      some true :=
  C2_base_rule.1 ℚ lerpNumber 0 1 ⟨10⟩ none Strat.clamp ⟨12⟩ ⟨15⟩ ⟨10⟩ rfl rfl

/-- C3 fails as stated: deriving over a `SwitchAnimation` does not
preserve `isSameAt`.  The derived node uses the inherited
transform-first rule and answers `true` at the instants 15 and 20
(both clamp to 10), while the switch itself, comparing raw instants,
answers `false`. -/
theorem C3_counterexample :
    (DerivedAnimation
        (SwitchAnimation ⟨10⟩
          [⟨Tween lerpNumber 0 100 ⟨100⟩ none Strat.clamp, ⟨0⟩⟩]
          Strat.clamp)
        (fun x => x)).isSameAt? ⟨15⟩ ⟨20⟩ = some true
    ∧ (SwitchAnimation ⟨10⟩
        [⟨Tween lerpNumber 0 100 ⟨100⟩ none Strat.clamp, ⟨0⟩⟩]
        Strat.clamp).isSameAt? ⟨15⟩ ⟨20⟩ = some false := by
  exact ⟨rfl, rfl⟩

/-- C3 (amended): for every animation `A` whose `at` and `isSameAt` are
the inherited `TransformingAnimation` implementations (every variant
except switch, staggered and windowed, which override `isSameAt` on raw
instants), with a positive duration when `A`'s strategy is `wrap`:
`A.derive(f).at(t) = f(A.at(t))` for all `t`,
`A.derive(f).isSameAt(a,b) = A.isSameAt(a,b)` for all `a`, `b`, and the
derived node keeps `A`'s duration and strategy. -/
theorem C3_derive_laws (S U : Type) (A : AnimSem S) (f : S → U)
    (atT : Duration → Option S) (sameT : Duration → Duration → Option Bool)
    (hAt : A.at? = transformingAt A.duration A.strategy atT)
    (hSame : A.isSameAt? = transformingSame A.duration A.strategy sameT)
    (hw : A.strategy = .wrap → 0 < A.duration.frame) :
    (∀ t, (DerivedAnimation A f).at? t = (A.at? t).map f)
    ∧ (∀ a b, (DerivedAnimation A f).isSameAt? a b = A.isSameAt? a b)
    ∧ (DerivedAnimation A f).duration = A.duration
    ∧ (DerivedAnimation A f).strategy = A.strategy := by
  refine ⟨?_, ?_, rfl, rfl⟩
  · intro t
    show transformingAt A.duration A.strategy (derivedAtTransformed A f) t = _
    simp only [transformingAt, derivedAtTransformed, hAt]
    cases h : A.strategy.transform A.duration t with
    | none => rfl
    | some t1 =>
        have hi := Strat.transform_idem _ _ hw t t1 h
        simp [hi]
  · intro a b
    show transformingSame A.duration A.strategy
        (fun x y => A.isSameAt? x y) a b = _
    simp only [hSame, transformingSame]
    cases ha : A.strategy.transform A.duration a with
    | none => rfl
    | some a' =>
        cases hb : A.strategy.transform A.duration b with
        | none => rfl
        | some b' =>
            have hia := Strat.transform_idem _ _ hw a a' ha
            have hib := Strat.transform_idem _ _ hw b b' hb
            by_cases he : a'.isEqualTo b' = true
            · simp [he]
            · simp [he, hia, hib]

theorem C3_derive_laws_witness :
    (DerivedAnimation (Tween lerpNumber 0 1 ⟨5⟩ none Strat.clamp)
        (fun x => x + 1)).at? ⟨3⟩ =
      ((Tween lerpNumber 0 1 ⟨5⟩ none Strat.clamp).at? ⟨3⟩).map
        (fun x => x + 1) :=
  (C3_derive_laws ℚ ℚ (Tween lerpNumber 0 1 ⟨5⟩ none Strat.clamp)
      (fun x => x + 1)
      (tweenAtTransformed lerpNumber 0 1 ⟨5⟩ none)
      (fun _ _ => some false) rfl rfl
      (fun h => absurd h (by decide))).1 ⟨3⟩

/-- C4: a tween whose duration has frame count 0 evaluates to its `to`
value at every instant: progress is defined as exactly 1 (no division
by the zero-length duration), easing is applied to that progress
(assumed to fix 1), and `lerp from to 1` (assumed to reach `to`)
produces the result. -/
theorem C4_zero_duration_tween (T : Type) (lerp : T → T → ℚ → T)
    (frm toV : T) (easing : Option (ℚ → ℚ)) (t : Duration)
    (he : easedApply easing 1 = 1) (hl : lerp frm toV 1 = toV) :
    tweenProgress ⟨0⟩ t = 1
    ∧ (Tween lerp frm toV ⟨0⟩ easing Strat.clamp).at? t = some toV := by
  have hp : ∀ u : Duration, tweenProgress ⟨0⟩ u = 1 := by
    intro u
    simp [tweenProgress, Duration.isZero]
  refine ⟨hp t, ?_⟩
  show transformingAt ⟨0⟩ Strat.clamp
      (tweenAtTransformed lerp frm toV ⟨0⟩ easing) t = _
  simp [transformingAt, tweenAtTransformed, Strat.transform, hp, he, hl]

theorem C4_zero_duration_tween_witness :
    tweenProgress ⟨0⟩ ⟨42⟩ = 1
    ∧ (Tween lerpNumber 3 7 ⟨0⟩ none Strat.clamp).at? ⟨42⟩ = some 7 :=
  C4_zero_duration_tween ℚ lerpNumber 3 7 none ⟨42⟩ rfl
    (by norm_num [lerpNumber])

/-! ### Claim theorems: switch selection before the first entry -/

/-- C9: for a `SwitchAnimation` whose first entry starts at `s0`, any
instant whose strategy-transformed value `t'` lies below `s0` makes
`findIndex` answer 0, and stepping back one lands on JavaScript's
`at(-1)`, the LAST entry: the node evaluates the last child at the
(negative) local time `t' - lastEntry.time`, and the first entry is not
the selected index whenever the table has at least two entries. -/
theorem C9_switch_wraps_to_last (T : Type) (theEnd : Duration)
    (l : List (Timed (AnimSem T))) (s : Strat) (t t' : Duration)
    (firstE lastE : Timed (AnimSem T))
    (hhead : l.head? = some firstE)
    (hlast : l.getLast? = some lastE)
    (ht : s.transform theEnd t = some t')
    (hlt : t'.frame < firstE.time.frame) :
    switchChosenIdx l t' = some (l.length - 1)
    ∧ switchGetAnimAt l t' = some lastE
    ∧ (SwitchAnimation theEnd l s).at? t =
        lastE.value.at? (t'.subtract lastE.time)
    ∧ (2 ≤ l.length → switchChosenIdx l t' ≠ some 0) := by
  obtain ⟨a, rest, rfl⟩ : ∃ a rest, l = a :: rest := by
    cases l with
    | nil => simp at hhead
    | cons a rest => exact ⟨a, rest, rfl⟩
  have ha : firstE = a := by simp_all
  subst ha
  have hidx : switchChosenIdx (firstE :: rest) t' =
      some ((firstE :: rest).length - 1) := by
    simp [switchChosenIdx, List.findIdx?_cons, Duration.isGreaterThan, hlt]
  have hget : switchGetAnimAt (firstE :: rest) t' = some lastE := by
    rw [switchGetAnimAt, hidx]
    simpa [List.getLast?_eq_getElem?] using hlast
  refine ⟨hidx, hget, ?_, ?_⟩
  · show transformingAt theEnd s (switchAtTransformed (firstE :: rest)) t = _
    rw [transformingAt, ht]
    simp [switchAtTransformed, hget]
  · intro hlen
    rw [hidx]
    simp only [List.length_cons, ne_eq, Option.some.injEq]
    simp at hlen
    omega

theorem C9_switch_wraps_to_last_witness :
    (SwitchAnimation ⟨10⟩
        [⟨ConstantAnimation (0 : ℚ) ⟨0⟩, ⟨5⟩⟩,
         ⟨ConstantAnimation (1 : ℚ) ⟨0⟩, ⟨8⟩⟩] Strat.delegate).at? ⟨3⟩ =
      (ConstantAnimation (1 : ℚ) ⟨0⟩).at? ((Duration.mk 3).subtract ⟨8⟩) :=
  (C9_switch_wraps_to_last ℚ ⟨10⟩
      [⟨ConstantAnimation (0 : ℚ) ⟨0⟩, ⟨5⟩⟩,
       ⟨ConstantAnimation (1 : ℚ) ⟨0⟩, ⟨8⟩⟩] Strat.delegate ⟨3⟩ ⟨3⟩
      ⟨ConstantAnimation (0 : ℚ) ⟨0⟩, ⟨5⟩⟩
      ⟨ConstantAnimation (1 : ℚ) ⟨0⟩, ⟨8⟩⟩
      rfl rfl rfl (by decide)).2.2.1

/-! ### Prefix-sum lemmas for sequence and staggered layouts -/

theorem seqTotalDuration_go {T : Type} (l : List (AnimSem T)) (acc : Duration) :
    (l.foldl (fun sum a => sum.add a.duration) acc).frame =
      acc.frame + (durFrames l).sum := by
  induction l generalizing acc with
  | nil => simp [durFrames]
  | cons a rest ih =>
      simp only [List.foldl_cons, durFrames, List.map_cons, List.sum_cons]
      rw [ih]
      simp [Duration.add, durFrames]
      ring

theorem seqTotalDuration_frame {T : Type} (l : List (AnimSem T)) :
    (seqTotalDuration l).frame = (durFrames l).sum := by
  simpa [Duration.zero] using seqTotalDuration_go l Duration.zero

theorem seqTotalDuration_eq {T : Type} (l : List (AnimSem T)) :
    seqTotalDuration l = ⟨(durFrames l).sum⟩ := by
  cases h : seqTotalDuration l with
  | mk fr =>
      have := seqTotalDuration_frame l
      rw [h] at this
      simp_all

theorem startOffset_zero {T : Type} (l : List (AnimSem T)) :
    startOffset l 0 = 0 := by
  simp [startOffset]

theorem startOffset_cons {T : Type} (a : AnimSem T) (rest : List (AnimSem T))
    (k : Nat) :
    startOffset (a :: rest) (k + 1) = a.duration.frame + startOffset rest k := by
  simp [startOffset, durFrames]

theorem startOffset_nonneg {T : Type} (l : List (AnimSem T))
    (hd : ∀ a ∈ l, 0 ≤ a.duration.frame) (k : Nat) : 0 ≤ startOffset l k := by
  induction l generalizing k with
  | nil => simp [startOffset, durFrames]
  | cons a rest ih =>
      cases k with
      | zero => simp [startOffset_zero]
      | succ k =>
          rw [startOffset_cons]
          have h1 := hd a (by simp)
          have h2 := ih (fun x hx => hd x (by simp [hx])) k
          omega

theorem startOffset_le_sum {T : Type} (l : List (AnimSem T))
    (hd : ∀ a ∈ l, 0 ≤ a.duration.frame) (k : Nat) :
    startOffset l k ≤ (durFrames l).sum := by
  induction l generalizing k with
  | nil => simp [startOffset, durFrames]
  | cons a rest ih =>
      cases k with
      | zero =>
          rw [startOffset_zero]
          have h1 := hd a (by simp)
          have h2 : 0 ≤ startOffset rest 0 := by simp [startOffset_zero]
          have h3 := startOffset_nonneg rest (fun x hx => hd x (by simp [hx]))
          have h4 := ih (fun x hx => hd x (by simp [hx])) rest.length
          have h5 : startOffset rest rest.length = (durFrames rest).sum := by
            unfold startOffset
            rw [List.take_of_length_le (by simp [durFrames])]
          simp only [durFrames, List.map_cons, List.sum_cons]
          have h6 : 0 ≤ (durFrames rest).sum := h5 ▸ h3 rest.length
          simp only [durFrames] at h6
          omega
      | succ k =>
          rw [startOffset_cons]
          have h4 := ih (fun x hx => hd x (by simp [hx])) k
          simp only [durFrames, List.map_cons, List.sum_cons]
          simp only [durFrames] at h4
          omega

theorem startOffset_succ_of_lt {T : Type} (l : List (AnimSem T)) (k : Nat)
    (hk : k < l.length) :
    startOffset l (k + 1) = startOffset l k + (l.get ⟨k, hk⟩).duration.frame := by
  induction l generalizing k with
  | nil => simp at hk
  | cons a rest ih =>
      cases k with
      | zero => simp [startOffset_cons, startOffset_zero]
      | succ k =>
          rw [startOffset_cons, startOffset_cons,
            ih k (by simpa using Nat.lt_of_succ_lt_succ hk)]
          simp
          ring

/-! ### The sequence scan -/

theorem seqGo_window {T : Type} (full : List (AnimSem T)) (t : Duration) :
    ∀ (suf : List (AnimSem T)) (ns : Int) (k : Nat) (hk : k < suf.length),
      (∀ a ∈ suf, 0 ≤ a.duration.frame) →
      ns + startOffset suf k ≤ t.frame →
      t.frame < ns + startOffset suf (k + 1) →
      seqGo full t suf ⟨ns⟩ =
        (suf.get ⟨k, hk⟩).at? (t.subtract ⟨ns + startOffset suf k⟩) := by
  intro suf
  induction suf with
  | nil =>
      intro ns k hk
      simp at hk
  | cons a rest ih =>
      intro ns k hk hd hlo hhi
      cases k with
      | zero =>
          rw [startOffset_zero] at hlo
          rw [startOffset_cons, startOffset_zero] at hhi
          have hlt : t.isLessThan (Duration.mk ns |>.add a.duration) = true := by
            simp [Duration.isLessThan, Duration.add]
            omega
          rw [seqGo, hlt]
          simp only [List.get]
          congr 1
          simp [Duration.add, Duration.subtract, startOffset_zero]
      | succ k =>
          have hrest : ∀ x ∈ rest, 0 ≤ x.duration.frame :=
            fun x hx => hd x (by simp [hx])
          rw [startOffset_cons] at hlo hhi
          have hnn := startOffset_nonneg rest hrest k
          have hlt : t.isLessThan (Duration.mk ns |>.add a.duration) = false := by
            simp [Duration.isLessThan, Duration.add]
            omega
          rw [seqGo, hlt]
          have := ih (ns + a.duration.frame) k
            (by simpa using Nat.lt_of_succ_lt_succ hk) hrest
            (by omega) (by omega)
          simp only [Duration.add] at this ⊢
          rw [this]
          simp only [List.get]
          congr 1
          rw [startOffset_cons]
          simp
          ring

theorem seqGo_end {T : Type} (full : List (AnimSem T)) (t : Duration) :
    ∀ (suf : List (AnimSem T)) (ns : Int),
      (∀ a ∈ suf, 0 ≤ a.duration.frame) →
      ns + (durFrames suf).sum ≤ t.frame →
      seqGo full t suf ⟨ns⟩ = seqFallback full t ⟨ns + (durFrames suf).sum⟩ := by
  intro suf
  induction suf with
  | nil =>
      intro ns hd hle
      rw [seqGo]
      congr 1
      simp [durFrames]
  | cons a rest ih =>
      intro ns hd hle
      have hrest : ∀ x ∈ rest, 0 ≤ x.duration.frame :=
        fun x hx => hd x (by simp [hx])
      have hsum : 0 ≤ (durFrames rest).sum := by
        have h3 := startOffset_nonneg rest hrest rest.length
        have h5 : startOffset rest rest.length = (durFrames rest).sum := by
          unfold startOffset
          rw [List.take_of_length_le (by simp [durFrames])]
        omega
      simp only [durFrames, List.map_cons, List.sum_cons] at hle
      have hlt : t.isLessThan (Duration.mk ns |>.add a.duration) = false := by
        simp [Duration.isLessThan, Duration.add]
        simp only [durFrames] at hsum
        omega
      rw [seqGo, hlt]
      simp only [Bool.false_eq_true, if_false]
      have := ih (ns + a.duration.frame) hrest
        (by simp only [durFrames] at *; omega)
      simp only [Duration.add] at this ⊢
      rw [this]
      congr 1
      simp only [durFrames, List.map_cons, List.sum_cons, Duration.mk.injEq]
      ring


theorem Duration.frame_mk (x : Int) : (Duration.mk x).frame = x := rfl

theorem Duration.subtract_frame (a b : Duration) :
    (a.subtract b).frame = a.frame - b.frame := rfl

theorem Duration.add_frame (a b : Duration) :
    (a.add b).frame = a.frame + b.frame := rfl

theorem Duration.zero_frame : Duration.zero.frame = 0 := rfl

theorem Duration.eq_of_frame {a b : Duration} (h : a.frame = b.frame) :
    a = b := by
  cases a
  cases b
  simpa using h

theorem Duration.clamp_eq_self (t lo hi : Duration)
    (h1 : lo.frame ≤ t.frame) (h2 : t.frame ≤ hi.frame) :
    t.clamp lo hi = t := by
  unfold Duration.clamp
  rw [min_eq_right h2, max_eq_right h1]

theorem Duration.clamp_eq_hi (t lo hi : Duration)
    (h1 : lo.frame ≤ hi.frame) (h2 : hi.frame ≤ t.frame) :
    t.clamp lo hi = hi := by
  unfold Duration.clamp
  rw [min_eq_left h2, max_eq_right h1]

/-- C1: a `SequenceAnimation` built from a non-empty list of children
with non-negative durations `[d0, ..., dn]` (default clamp strategy)
has duration `d0+...+dn`; at any instant `t` inside child `k`'s window
(`sum(d0..d(k-1)) <= t < sum(d0..dk)`) it evaluates `children[k]` at
`t - sum(d0..d(k-1))` (windows exclusive at their end); and at any
instant whose clamp-transformed value equals the total duration
(`t >= total`), it evaluates the very last child at that child's own
final instant, its duration. -/
theorem C1_sequence_composition (T : Type) (l : List (AnimSem T))
    (_hne : l ≠ []) (hd : ∀ a ∈ l, 0 ≤ a.duration.frame) :
    (SequenceAnimation l Strat.clamp).duration.frame = (durFrames l).sum
    ∧ (∀ (k : Nat) (hk : k < l.length) (t : Duration),
        startOffset l k ≤ t.frame → t.frame < startOffset l (k + 1) →
        (SequenceAnimation l Strat.clamp).at? t =
          (l.get ⟨k, hk⟩).at? (t.subtract ⟨startOffset l k⟩))
    ∧ (∀ (t : Duration) (lastA : AnimSem T), l.getLast? = some lastA →
        (durFrames l).sum ≤ t.frame →
        (SequenceAnimation l Strat.clamp).at? t = lastA.at? lastA.duration) := by
  have hat : ∀ t : Duration, (SequenceAnimation l Strat.clamp).at? t =
      seqGo l (t.clamp Duration.zero (seqTotalDuration l)) l Duration.zero :=
    fun t => rfl
  have hsum0 : 0 ≤ (durFrames l).sum := by
    have h3 := startOffset_nonneg l hd l.length
    have h5 : startOffset l l.length = (durFrames l).sum := by
      unfold startOffset
      rw [List.take_of_length_le (by simp [durFrames])]
    omega
  refine ⟨seqTotalDuration_frame l, ?_, ?_⟩
  · intro k hk t hlo hhi
    have h1 : 0 ≤ startOffset l k := startOffset_nonneg l hd k
    have h2 : startOffset l (k + 1) ≤ (durFrames l).sum :=
      startOffset_le_sum l hd (k + 1)
    have hclamp : t.clamp Duration.zero (seqTotalDuration l) = t := by
      refine Duration.clamp_eq_self _ _ _ ?_ ?_
      · rw [Duration.zero_frame]
        omega
      · rw [seqTotalDuration_frame]
        omega
    rw [hat, hclamp]
    have hwin := seqGo_window l t l 0 k hk hd (by omega) (by omega)
    rw [show Duration.zero = (⟨0⟩ : Duration) from rfl, hwin]
    congr 1
    apply Duration.eq_of_frame
    simp only [Duration.subtract_frame, Duration.frame_mk]
    omega
  · intro t lastA hlast hle
    have hclamp : t.clamp Duration.zero (seqTotalDuration l) =
        seqTotalDuration l := by
      refine Duration.clamp_eq_hi _ _ _ ?_ ?_
      · rw [Duration.zero_frame, seqTotalDuration_frame]
        omega
      · rw [seqTotalDuration_frame]
        omega
    rw [hat, hclamp]
    have hend := seqGo_end l (seqTotalDuration l) l 0 hd
      (by rw [seqTotalDuration_frame]; omega)
    rw [show Duration.zero = (⟨0⟩ : Duration) from rfl, hend]
    simp only [seqFallback, hlast]
    congr 1
    apply Duration.eq_of_frame
    simp only [Duration.subtract_frame, Duration.frame_mk, seqTotalDuration_frame]
    omega

theorem C1_sequence_composition_witness :
    (SequenceAnimation
        [ConstantAnimation (5 : ℚ) ⟨2⟩, ConstantAnimation (9 : ℚ) ⟨3⟩]
        Strat.clamp).at? ⟨3⟩ =
      (ConstantAnimation (9 : ℚ) ⟨3⟩).at?
        ((Duration.mk 3).subtract ⟨2⟩) :=
  (C1_sequence_composition ℚ
      [ConstantAnimation (5 : ℚ) ⟨2⟩, ConstantAnimation (9 : ℚ) ⟨3⟩]
      (by simp)
      (by
        intro a ha
        simp only [List.mem_cons, List.mem_singleton] at ha
        rcases ha with rfl | rfl | h
        · exact (by norm_num : (0 : Int) ≤ 2)
        · exact (by norm_num : (0 : Int) ≤ 3)
        · simp at h)).2.1
    1 (by decide) ⟨3⟩ (by decide) (by decide)

/-! ### The staggered layout -/

theorem Duration.clamp_frame (t lo hi : Duration) :
    (t.clamp lo hi).frame = Max.max lo.frame (Min.min hi.frame t.frame) := rfl

theorem windowBetween_frame (frm upTo time : Duration) :
    (windowBetween frm upTo time).frame =
      max 0 (min (upTo.frame - frm.frame) (time.frame - frm.frame)) := rfl

theorem staggeredAt_get {T : Type} (time : Duration) :
    ∀ (suf : List (AnimSem T)) (ns : Int) (vs : List T),
      staggeredAt time suf ⟨ns⟩ = some vs →
      vs.length = suf.length ∧
      ∀ (k : Nat) (hk : k < suf.length),
        vs.get? k = (suf.get ⟨k, hk⟩).at?
          (windowBetween ⟨ns + startOffset suf k⟩
            ⟨ns + startOffset suf (k + 1)⟩ time) := by
  intro suf
  induction suf with
  | nil =>
      intro ns vs h
      rw [staggeredAt] at h
      simp only [Option.some.injEq] at h
      subst h
      exact ⟨rfl, fun k hk => by simp at hk⟩
  | cons a rest ih =>
      intro ns vs h
      rw [staggeredAt] at h
      cases hv : a.at? (windowBetween ⟨ns⟩ (Duration.mk ns |>.add a.duration)
          time) with
      | none => rw [hv] at h; simp at h
      | some v =>
          rw [hv] at h
          cases hrest : staggeredAt time rest (Duration.mk ns |>.add
              a.duration) with
          | none => rw [hrest] at h; simp at h
          | some vs' =>
              rw [hrest] at h
              simp only [Option.some_bind, Option.map_some', Option.some.injEq]
                at h
              have hadd : (Duration.mk ns).add a.duration =
                  ⟨ns + a.duration.frame⟩ := rfl
              rw [hadd] at hrest
              obtain ⟨hlen, hget⟩ := ih (ns + a.duration.frame) vs' hrest
              refine ⟨by simp [← h, hlen], ?_⟩
              intro k hk
              cases k with
              | zero =>
                  have e1 : (⟨ns + startOffset (a :: rest) 0⟩ : Duration) =
                      ⟨ns⟩ := by
                    apply Duration.eq_of_frame
                    simp [Duration.frame_mk, startOffset_zero]
                  have e2 : (⟨ns + startOffset (a :: rest) 1⟩ : Duration) =
                      (Duration.mk ns).add a.duration := by
                    apply Duration.eq_of_frame
                    simp [Duration.frame_mk, Duration.add_frame,
                      startOffset_cons, startOffset_zero]
                  rw [e1, e2]
                  simp only [← h, List.get?_eq_getElem?]
                  simpa using hv.symm
              | succ k =>
                  have hk' : k < rest.length := by
                    simpa using Nat.lt_of_succ_lt_succ hk
                  have e1 : (⟨ns + startOffset (a :: rest) (k + 1)⟩ :
                      Duration) = ⟨ns + a.duration.frame + startOffset rest k⟩
                      := by
                    apply Duration.eq_of_frame
                    simp only [Duration.frame_mk, startOffset_cons]
                    ring
                  have e2 : (⟨ns + startOffset (a :: rest) (k + 2)⟩ :
                      Duration) =
                      ⟨ns + a.duration.frame + startOffset rest (k + 1)⟩ := by
                    apply Duration.eq_of_frame
                    simp only [Duration.frame_mk, startOffset_cons]
                    ring
                  rw [e1, e2]
                  have := hget k hk'
                  simp only [← h]
                  simpa using this

/-- C5: a `StaggeredAnimation` (children with non-negative durations,
default clamp strategy) evaluates, at any instant, to the list of every
child's value in order, each child seeing the transformed instant
clamped into its own back-to-back window; a child whose window start
lies after `t` sees local time 0 (contributing `c.at(0)`), and one
whose window end lies before `t` sees its own duration (contributing
`c.at(c.duration)`); concretely `staggered([A(60), B(80)]).at(36)`
is `[A.at(36), B.at(0)]`. -/
theorem C5_staggered_windows (T : Type) (l : List (AnimSem T))
    (hd : ∀ a ∈ l, 0 ≤ a.duration.frame) (t : Duration) :
    (∀ vs : List T, (StaggeredAnimation l Strat.clamp).at? t = some vs →
      vs.length = l.length ∧
      ∀ (k : Nat) (hk : k < l.length),
        vs.get? k = (l.get ⟨k, hk⟩).at?
          (windowBetween ⟨startOffset l k⟩ ⟨startOffset l (k + 1)⟩
            (t.clamp Duration.zero (seqTotalDuration l))))
    ∧ (∀ (k : Nat) (hk : k < l.length),
        (t.frame < startOffset l k →
          windowBetween ⟨startOffset l k⟩ ⟨startOffset l (k + 1)⟩
            (t.clamp Duration.zero (seqTotalDuration l)) = Duration.zero)
        ∧ (startOffset l (k + 1) < t.frame →
          windowBetween ⟨startOffset l k⟩ ⟨startOffset l (k + 1)⟩
            (t.clamp Duration.zero (seqTotalDuration l)) =
            (l.get ⟨k, hk⟩).duration))
    ∧ (∀ (A B : AnimSem T), A.duration = ⟨60⟩ → B.duration = ⟨80⟩ →
        (StaggeredAnimation [A, B] Strat.clamp).at? ⟨36⟩ =
          (A.at? ⟨36⟩).bind
            (fun va => (B.at? ⟨0⟩).map (fun vb => [va, vb]))) := by
  have hat : ∀ u : Duration, (StaggeredAnimation l Strat.clamp).at? u =
      staggeredAt (u.clamp Duration.zero (seqTotalDuration l)) l ⟨0⟩ :=
    fun u => rfl
  refine ⟨?_, ?_, ?_⟩
  · intro vs hvs
    rw [hat] at hvs
    obtain ⟨hlen, hget⟩ := staggeredAt_get
      (t.clamp Duration.zero (seqTotalDuration l)) l 0 vs hvs
    refine ⟨hlen, ?_⟩
    intro k hk
    have e1 : (⟨(0 : Int) + startOffset l k⟩ : Duration) =
        ⟨startOffset l k⟩ := by
      apply Duration.eq_of_frame
      simp
    have e2 : (⟨(0 : Int) + startOffset l (k + 1)⟩ : Duration) =
        ⟨startOffset l (k + 1)⟩ := by
      apply Duration.eq_of_frame
      simp
    have hgk := hget k hk
    rw [e1, e2] at hgk
    exact hgk
  · intro k hk
    have h1 : 0 ≤ startOffset l k := startOffset_nonneg l hd k
    have h2 : startOffset l (k + 1) ≤ (durFrames l).sum :=
      startOffset_le_sum l hd (k + 1)
    have h3 : startOffset l (k + 1) =
        startOffset l k + (l.get ⟨k, hk⟩).duration.frame :=
      startOffset_succ_of_lt l k hk
    have h4 : 0 ≤ (l.get ⟨k, hk⟩).duration.frame :=
      hd _ (l.get_mem k hk)
    constructor
    · intro hlt
      apply Duration.eq_of_frame
      rw [windowBetween_frame]
      simp only [Duration.frame_mk, Duration.clamp_frame, Duration.zero_frame,
        seqTotalDuration_frame]
      omega
    · intro hgt
      apply Duration.eq_of_frame
      rw [windowBetween_frame]
      simp only [Duration.frame_mk, Duration.clamp_frame, Duration.zero_frame,
        seqTotalDuration_frame]
      omega
  · intro A B hA hB
    have hat2 : (StaggeredAnimation [A, B] Strat.clamp).at? ⟨36⟩ =
        staggeredAt ((Duration.mk 36).clamp Duration.zero
          (seqTotalDuration [A, B])) [A, B] ⟨0⟩ := rfl
    have hD : seqTotalDuration [A, B] = ⟨140⟩ := by
      apply Duration.eq_of_frame
      simp [seqTotalDuration_frame, durFrames, hA, hB]
    rw [hat2, hD]
    have hclamp : (Duration.mk 36).clamp Duration.zero ⟨140⟩ = ⟨36⟩ := rfl
    rw [hclamp]
    have hstart2 : (Duration.mk 0).add A.duration = ⟨60⟩ := by
      rw [hA]
      rfl
    have hstart3 : (Duration.mk 60).add B.duration = ⟨140⟩ := by
      rw [hB]
      rfl
    have hw1 : windowBetween ⟨0⟩ ⟨60⟩ ⟨36⟩ = (⟨36⟩ : Duration) := rfl
    have hw2 : windowBetween ⟨60⟩ ⟨140⟩ ⟨36⟩ = (⟨0⟩ : Duration) := rfl
    simp only [staggeredAt, hstart2, hstart3, hw1, hw2]
    cases A.at? ⟨36⟩ <;> cases B.at? ⟨0⟩ <;> simp

theorem C5_staggered_windows_witness :
    (StaggeredAnimation
        [ConstantAnimation (1 : ℚ) ⟨60⟩, ConstantAnimation (2 : ℚ) ⟨80⟩]
        Strat.clamp).at? ⟨36⟩ =
      ((ConstantAnimation (1 : ℚ) ⟨60⟩).at? ⟨36⟩).bind
        (fun va => ((ConstantAnimation (2 : ℚ) ⟨80⟩).at? ⟨0⟩).map
          (fun vb => [va, vb])) :=
  (C5_staggered_windows ℚ
      [ConstantAnimation (1 : ℚ) ⟨60⟩, ConstantAnimation (2 : ℚ) ⟨80⟩]
      (by
        intro a ha
        simp only [List.mem_cons, List.mem_singleton] at ha
        rcases ha with rfl | rfl | h
        · exact (by norm_num : (0 : Int) ≤ 60)
        · exact (by norm_num : (0 : Int) ≤ 80)
        · simp at h) ⟨36⟩).2.2
    (ConstantAnimation (1 : ℚ) ⟨60⟩) (ConstantAnimation (2 : ℚ) ⟨80⟩) rfl rfl
